import Mathlib

/-!
Verification of the agent-side bookkeeping and settlement engine of the
stocks simulation (src/entities/agents.rs and src/transaction.rs).

Floating point values (f64) are modelled as rationals, machine integers
(u64, u128, usize) as Nat with explicit truncation where the source casts.
HashMap is modelled as an association list with unique-key discipline;
lookups and updates mirror the HashMap operations used by the source.
The constant TIMELINE_SIZE_LIMIT is declared in the crate root, which is
not part of the sources under verification, so every Timeline operation
takes the capacity as an explicit parameter named C.
-/

set_option maxHeartbeats 1000000

/-- Trade side, from trade_house (variants as used throughout agents.rs). -/
inductive TradeAction where
  | Buy
  | Sell
deriving DecidableEq, Repr, Inhabited

/-- Error type of the simulation, variants as matched in main.rs. -/
inductive SimulationError where
  | AgentNotFound (id : Nat)
  | NoData
  | Unspendable
  | UnDoable
deriving DecidableEq, Repr

/-- KeyCodec: packs two 64-bit identifiers into one 128-bit key,
mirroring fn combine in agents.rs ((a as u128) << 64 | b as u128). -/
def combine (a b : Nat) : Nat :=
  (a <<< 64) ||| b

/-- KeyCodec: recovers the first identifier, mirroring fn get_first in
agents.rs ((a >> 64) as u64); the u64 cast is the mod 2 ^ 64 truncation. -/
def get_first (a : Nat) : Nat :=
  (a >>> 64) % (2 ^ 64)

/-- KeyCodec: recovers the second identifier, mirroring fn get_second in
agents.rs ((a & 0xFFFFFFFFFFFFFFFF) as u64). -/
def get_second (a : Nat) : Nat :=
  a &&& 0xFFFFFFFFFFFFFFFF

/-- Association-list model of HashMap lookup (HashMap::get). -/
def findVal {β : Type} (l : List (Nat × β)) (k : Nat) : Option β :=
  (l.find? (fun p => p.1 == k)).map Prod.snd

/-- Association-list model of writing through HashMap::get_mut on a
present key: replace the value stored at that key. -/
def setVal {β : Type} (l : List (Nat × β)) (k : Nat) (v : β) : List (Nat × β) :=
  l.map (fun p => if p.1 == k then (k, v) else p)

/-- Association-list model of HashMap::insert: overwrite the value when
the key is present, otherwise append the new binding. -/
def insertKV {β : Type} (l : List (Nat × β)) (k : Nat) (v : β) : List (Nat × β) :=
  match findVal l k with
  | some _ => setVal l k v
  | none => l ++ [(k, v)]

/-- A finalized exchange record (struct Transaction in transaction.rs).
The source documents buyer_id as the agent which gave away his shares. -/
structure Transaction where
  buyer_id : Nat
  seller_id : Nat
  company_id : Nat
  number_of_shares : Nat
  strike_price : ℚ
deriving DecidableEq, Repr

/-- Holdings ledger: HashMap from a combined (agent, company) 128-bit key
to a share count (struct Holdings in agents.rs). -/
structure Holdings where
  entries : List (Nat × Nat)
deriving DecidableEq, Repr

/-- Holdings::get - share count for (agent, company), defaulting to 0. -/
def Holdings.get (h : Holdings) (agent_id company_id : Nat) : Nat :=
  match findVal h.entries (combine agent_id company_id) with
  | some share_count => share_count
  | none => 0

/-- Holdings::get_u128 - share count addressed by an already-combined key. -/
def Holdings.get_u128 (h : Holdings) (id : Nat) : Nat :=
  match findVal h.entries id with
  | some share_count => share_count
  | none => 0

/-- Holdings::push - insert-or-add of a share count. -/
def Holdings.push (h : Holdings) (agent_id company_id number_of_shares : Nat) : Holdings :=
  match findVal h.entries (combine agent_id company_id) with
  | none => ⟨h.entries ++ [(combine agent_id company_id, number_of_shares)]⟩
  | some share_count => ⟨setVal h.entries (combine agent_id company_id) (share_count + number_of_shares)⟩

/-- Holdings::pop - check-then-decrement; Unspendable when the key is
absent or the stored count is below the requested quantity. -/
def Holdings.pop (h : Holdings) (agent_id company_id number_of_shares : Nat) :
    Except SimulationError Holdings :=
  match findVal h.entries (combine agent_id company_id) with
  | none => .error .Unspendable
  | some share_count =>
    if share_count < number_of_shares then .error .Unspendable
    else .ok ⟨setVal h.entries (combine agent_id company_id) (share_count - number_of_shares)⟩

/-- Holdings::push_from_txn - push keyed by a target agent and the
company and quantity of a settled Transaction. -/
def Holdings.push_from_txn (h : Holdings) (target_agent_id : Nat) (transaction : Transaction) : Holdings :=
  match findVal h.entries (combine target_agent_id transaction.company_id) with
  | some share_count =>
    ⟨setVal h.entries (combine target_agent_id transaction.company_id)
      (share_count + transaction.number_of_shares)⟩
  | none =>
    ⟨h.entries ++ [(combine target_agent_id transaction.company_id, transaction.number_of_shares)]⟩

/-- Holdings::pop_from_txn - pop keyed by a target agent and the company
and quantity of a settled Transaction. -/
def Holdings.pop_from_txn (h : Holdings) (target_agent_id : Nat) (transaction : Transaction) :
    Except SimulationError Holdings :=
  match findVal h.entries (combine target_agent_id transaction.company_id) with
  | none => .error .Unspendable
  | some share_count =>
    if share_count < transaction.number_of_shares then .error .Unspendable
    else .ok ⟨setVal h.entries (combine target_agent_id transaction.company_id)
      (share_count - transaction.number_of_shares)⟩

/-! ### Association list lemmas -/

theorem findVal_setVal_self {β : Type} (l : List (Nat × β)) (k : Nat) (v : β) :
    findVal (setVal l k v) k = (findVal l k).map (fun _ => v) := by
  induction l with
  | nil => rfl
  | cons p rest ih =>
    obtain ⟨pk, pv⟩ := p
    by_cases hp : pk = k
    · subst hp
      unfold findVal setVal
      simp only [List.map_cons]
      rw [if_pos (by simp)]
      rw [List.find?_cons_of_pos _ (by simp), List.find?_cons_of_pos _ (by simp)]
      rfl
    · unfold findVal setVal at ih ⊢
      simp only [List.map_cons]
      rw [if_neg (by simp [hp])]
      rw [List.find?_cons_of_neg _ (by simp [hp]), List.find?_cons_of_neg _ (by simp [hp])]
      exact ih

theorem findVal_setVal_ne {β : Type} (l : List (Nat × β)) (k k' : Nat) (v : β)
    (h : k' ≠ k) : findVal (setVal l k v) k' = findVal l k' := by
  induction l with
  | nil => rfl
  | cons p rest ih =>
    obtain ⟨pk, pv⟩ := p
    by_cases hp : pk = k
    · subst hp
      unfold findVal setVal at ih ⊢
      simp only [List.map_cons]
      rw [if_pos (by simp)]
      rw [List.find?_cons_of_neg _ (by simp [Ne.symm h]),
        List.find?_cons_of_neg _ (by simp [Ne.symm h])]
      exact ih
    · unfold findVal setVal at ih ⊢
      simp only [List.map_cons]
      rw [if_neg (by simp [hp])]
      by_cases hq : pk = k'
      · subst hq
        rw [List.find?_cons_of_pos _ (by simp), List.find?_cons_of_pos _ (by simp)]
      · rw [List.find?_cons_of_neg _ (by simp [hq]), List.find?_cons_of_neg _ (by simp [hq])]
        exact ih

theorem findVal_append_single_self {β : Type} (l : List (Nat × β)) (k : Nat) (v : β)
    (h : findVal l k = none) : findVal (l ++ [(k, v)]) k = some v := by
  induction l with
  | nil =>
    unfold findVal
    rw [List.nil_append, List.find?_cons_of_pos _ (by simp)]
    rfl
  | cons p rest ih =>
    obtain ⟨pk, pv⟩ := p
    unfold findVal at h ih ⊢
    by_cases hp : pk = k
    · subst hp
      rw [List.find?_cons_of_pos _ (by simp)] at h
      cases h
    · rw [List.find?_cons_of_neg _ (by simp [hp])] at h
      rw [List.cons_append, List.find?_cons_of_neg _ (by simp [hp])]
      exact ih h

theorem findVal_append_single_ne {β : Type} (l : List (Nat × β)) (k k' : Nat) (v : β)
    (h : k' ≠ k) : findVal (l ++ [(k, v)]) k' = findVal l k' := by
  induction l with
  | nil =>
    unfold findVal
    rw [List.nil_append, List.find?_cons_of_neg _ (by simp [Ne.symm h])]
  | cons p rest ih =>
    obtain ⟨pk, pv⟩ := p
    unfold findVal at ih ⊢
    by_cases hp : pk = k'
    · subst hp
      rw [List.cons_append, List.find?_cons_of_pos _ (by simp),
        List.find?_cons_of_pos _ (by simp)]
    · rw [List.cons_append, List.find?_cons_of_neg _ (by simp [hp]),
        List.find?_cons_of_neg _ (by simp [hp])]
      exact ih

theorem findVal_insertKV_self {β : Type} (l : List (Nat × β)) (k : Nat) (v : β) :
    findVal (insertKV l k v) k = some v := by
  unfold insertKV
  cases hf : findVal l k with
  | none => exact findVal_append_single_self l k v hf
  | some w => rw [findVal_setVal_self, hf]; rfl

theorem findVal_insertKV_ne {β : Type} (l : List (Nat × β)) (k k' : Nat) (v : β)
    (h : k' ≠ k) : findVal (insertKV l k v) k' = findVal l k' := by
  unfold insertKV
  cases hf : findVal l k with
  | none => exact findVal_append_single_ne l k k' v h
  | some w => exact findVal_setVal_ne l k k' v h

/-! ### KeyCodec facts -/

theorem combine_eq_mul_add (a b : Nat) (hb : b < 2 ^ 64) :
    combine a b = 2 ^ 64 * a + b := by
  unfold combine
  rw [Nat.shiftLeft_eq, Nat.mul_comm a (2 ^ 64)]
  exact (Nat.mul_add_lt_is_or hb a).symm

/-- C9: the composite-key codec is a round trip on 64-bit inputs:
get_first (combine a b) = a and get_second (combine a b) = b, and the
functions are total Lean functions. -/
theorem codec_roundtrip (a b : Nat) (ha : a < 2 ^ 64) (hb : b < 2 ^ 64) :
    get_first (combine a b) = a ∧ get_second (combine a b) = b := by
  rw [combine_eq_mul_add a b hb]
  constructor
  · unfold get_first
    rw [Nat.shiftRight_eq_div_pow]
    have hdiv : (2 ^ 64 * a + b) / 2 ^ 64 = a := by
      rw [Nat.mul_add_div (by norm_num), Nat.div_eq_of_lt hb, Nat.add_zero]
    rw [hdiv, Nat.mod_eq_of_lt ha]
  · unfold get_second
    have hmask : (0xFFFFFFFFFFFFFFFF : Nat) = 2 ^ 64 - 1 := by norm_num
    rw [hmask, Nat.and_pow_two_sub_one_eq_mod]
    rw [Nat.mul_add_mod]
    exact Nat.mod_eq_of_lt hb

/-- Witness for C9 at a concrete 64-bit input pair. -/
theorem codec_roundtrip_witness :
    get_first (combine 37 (2 ^ 63)) = 37 ∧ get_second (combine 37 (2 ^ 63)) = 2 ^ 63 :=
  codec_roundtrip 37 (2 ^ 63) (by norm_num) (by norm_num)

/-! ### Holdings.pop: C3 -/

/-- C3 counterexample: the claim says pop fails iff get < n, but on an
empty ledger pop (a, c, 0) fails with Unspendable even though
get a c = 0 is not below n = 0. -/
theorem pop_zero_absent_counterexample :
    Holdings.pop ⟨[]⟩ 0 0 0 = .error .Unspendable ∧
      ¬ (Holdings.get ⟨[]⟩ 0 0 < 0) := by
  constructor
  · rfl
  · decide

/-- C3 amended: pop (agent, company, n) fails with Unspendable iff the
entry is absent or its stored count is below n (for n at least 1 this is
get < n; an absent entry fails even for n = 0); on failure no state is
produced, and on success the count is decremented by exactly n while
every other key of the ledger is untouched. -/
theorem pop_spec (h : Holdings) (a c n : Nat) :
    (Holdings.pop h a c n = .error .Unspendable ↔
      findVal h.entries (combine a c) = none ∨
        ∃ s, findVal h.entries (combine a c) = some s ∧ s < n) ∧
    (∀ h', Holdings.pop h a c n = .ok h' →
      (∃ s, findVal h.entries (combine a c) = some s ∧ n ≤ s ∧
        h'.get a c = h.get a c - n ∧
        findVal h'.entries (combine a c) = some (s - n) ∧
        ∀ k, k ≠ combine a c → findVal h'.entries k = findVal h.entries k)) := by
  constructor
  · constructor
    · intro herr
      unfold Holdings.pop at herr
      cases hf : findVal h.entries (combine a c) with
      | none => exact Or.inl rfl
      | some s =>
        rw [hf] at herr
        dsimp only at herr
        by_cases hlt : s < n
        · exact Or.inr ⟨s, rfl, hlt⟩
        · rw [if_neg hlt] at herr
          cases herr
    · intro hcond
      unfold Holdings.pop
      rcases hcond with hnone | ⟨s, hs, hlt⟩
      · rw [hnone]
      · rw [hs]
        dsimp only
        rw [if_pos hlt]
  · intro h' hok
    unfold Holdings.pop at hok
    cases hf : findVal h.entries (combine a c) with
    | none => rw [hf] at hok; cases hok
    | some s =>
      rw [hf] at hok
      dsimp only at hok
      by_cases hlt : s < n
      · rw [if_pos hlt] at hok; cases hok
      · rw [if_neg hlt] at hok
        cases hok
        have h1 : findVal (setVal h.entries (combine a c) (s - n)) (combine a c)
            = some (s - n) := by
          rw [findVal_setVal_self, hf]
          rfl
        refine ⟨s, rfl, by omega, ?_, h1, ?_⟩
        · unfold Holdings.get
          rw [h1, hf]
        · intro k hk
          exact findVal_setVal_ne _ _ _ _ hk

/-- Witness for C3 amended at a concrete ledger. -/
theorem pop_spec_witness :
    Holdings.pop ⟨[(combine 1 2, 5)]⟩ 1 2 3 = .ok ⟨[(combine 1 2, 2)]⟩ ∧
      Holdings.get ⟨[(combine 1 2, 2)]⟩ 1 2 = Holdings.get ⟨[(combine 1 2, 5)]⟩ 1 2 - 3 := by
  refine ⟨by rfl, ?_⟩
  have h := (pop_spec ⟨[(combine 1 2, 5)]⟩ 1 2 3).2 ⟨[(combine 1 2, 2)]⟩ (by rfl)
  obtain ⟨s, _, _, hget, _, _⟩ := h
  exact hget

/-! ### Timeline: bounded ring buffer of preference events -/

/-- A preference event: a company id paired with a trade side. -/
abbrev TimelineEvent := Nat × TradeAction

/-- Default value used to make list indexing total; every theorem that
reads through it carries in-bounds hypotheses matching the rng contract. -/
def defaultEvent : TimelineEvent := (0, TradeAction.Buy)

/-- struct Timeline in agents.rs: a flat buffer plus the logical start of
the ring once the buffer has wrapped. -/
structure Timeline where
  data : List TimelineEvent
  target_index : Nat
deriving DecidableEq, Repr

/-- The full-buffer overwrite loop of Timeline::add: the event at
relative position i overwrites slot (i + target_index) mod C, for the
first C incoming events only (enumerate().take(C)). -/
def Timeline.writeAux (C tgt : Nat) : Nat → List TimelineEvent → List TimelineEvent → List TimelineEvent
  | _, buf, [] => buf
  | i, buf, e :: rest =>
    if i < C then Timeline.writeAux C tgt (i + 1) (buf.set ((i + tgt) % C) e) rest
    else buf

/-- Timeline::add with capacity C (TIMELINE_SIZE_LIMIT). The result is
none exactly when the Rust code would panic: in the partial-overflow
branch the slice self.data[0..destination_index] is taken, which is out
of bounds when destination_index exceeds the buffer length. -/
def Timeline.add (C : Nat) (t : Timeline) (data : List TimelineEvent) : Option Timeline :=
  if t.data.length = C then
    some ⟨Timeline.writeAux C t.target_index 0 t.data data, t.target_index⟩
  else if data.length + t.data.length ≤ C then
    some ⟨t.data ++ data, t.target_index⟩
  else
    let extend_size := C - t.data.length
    let destination_index := data.length - extend_size
    let extended := t.data ++ data.take extend_size
    if destination_index ≤ extended.length then
      some ⟨data.drop extend_size ++ extended.drop destination_index, destination_index⟩
    else none

/-- A sequence of Timeline::add calls, failing if any call panics. -/
def Timeline.addAll (C : Nat) : Timeline → List (List TimelineEvent) → Option Timeline
  | t, [] => some t
  | t, evs :: rest =>
    match Timeline.add C t evs with
    | none => none
    | some t1 => Timeline.addAll C t1 rest

/-- Timeline::get_rng, with the uniform draw of gen_range(0..len) passed
explicitly; NoData on an empty timeline. -/
def Timeline.get_rng (t : Timeline) (draw : Nat) : Except SimulationError TimelineEvent :=
  if t.data.isEmpty then .error .NoData
  else .ok (t.data.getD draw defaultEvent)

/-- Timeline::recency_bias, with the uniform draw of gen_range(0..bias_size)
passed explicitly. -/
def Timeline.recency_bias (t : Timeline) (bias_size draw : Nat) : Except SimulationError TimelineEvent :=
  if bias_size ≥ t.data.length then t.get_rng draw
  else if bias_size < t.target_index then
    .ok (t.data.getD (draw + (t.target_index - bias_size)) defaultEvent)
  else if draw < t.target_index then
    .ok (t.data.getD draw defaultEvent)
  else
    .ok (t.data.getD (t.data.length - (draw - t.target_index) - 1) defaultEvent)

/-! ### List indexing helper lemmas -/

theorem getD_set_self {α : Type} : ∀ (l : List α) (i : Nat) (x d : α),
    i < l.length → (l.set i x).getD i d = x
  | [], i, x, d, h => absurd h (by simp)
  | a :: l, 0, x, d, _ => rfl
  | a :: l, i + 1, x, d, h => getD_set_self l i x d (by simpa using h)

theorem getD_set_ne {α : Type} : ∀ (l : List α) (i j : Nat) (x d : α),
    i ≠ j → (l.set i x).getD j d = l.getD j d
  | [], _, _, _, _, _ => rfl
  | _ :: _, 0, 0, _, _, h => absurd rfl h
  | _ :: _, 0, _ + 1, _, _, _ => rfl
  | _ :: _, _ + 1, 0, _, _, _ => rfl
  | _ :: l, i + 1, j + 1, x, d, h => getD_set_ne l i j x d (fun he => h (by rw [he]))

theorem mod_add_cancel_of_lt {C a b t : Nat} (ha : a < C) (hb : b < C)
    (h : (a + t) % C = (b + t) % C) : a = b := by
  have h1 : a ≡ b [MOD C] := Nat.ModEq.add_right_cancel' t h
  have h2 : a % C = b % C := h1
  rw [Nat.mod_eq_of_lt ha, Nat.mod_eq_of_lt hb] at h2
  exact h2

/-! ### writeAux lemmas -/

theorem writeAux_length (C tgt : Nat) : ∀ (rest : List TimelineEvent) (i : Nat)
    (buf : List TimelineEvent), (Timeline.writeAux C tgt i buf rest).length = buf.length := by
  intro rest
  induction rest with
  | nil => intro i buf; rfl
  | cons e rest ih =>
    intro i buf
    unfold Timeline.writeAux
    by_cases hi : i < C
    · rw [if_pos hi, ih]
      simp
    · rw [if_neg hi]

theorem writeAux_getD_untouched (C tgt : Nat) (d : TimelineEvent) :
    ∀ (rest : List TimelineEvent) (i : Nat) (buf : List TimelineEvent) (j : Nat),
    (∀ k, k < rest.length → i + k < C → (i + k + tgt) % C ≠ j) →
    (Timeline.writeAux C tgt i buf rest).getD j d = buf.getD j d := by
  intro rest
  induction rest with
  | nil => intro i buf j _; rfl
  | cons e rest ih =>
    intro i buf j hj
    unfold Timeline.writeAux
    by_cases hi : i < C
    · rw [if_pos hi]
      rw [ih (i + 1) _ j (fun k hk hik => by
        have := hj (k + 1) (by simpa using Nat.succ_lt_succ hk) (by omega)
        have harith : i + (k + 1) = i + 1 + k := by omega
        rw [harith] at this
        exact this)]
      exact getD_set_ne _ _ _ _ _ (hj 0 (by simp) (by omega))
    · rw [if_neg hi]

theorem writeAux_getD_hit (C tgt : Nat) (d : TimelineEvent) :
    ∀ (rest : List TimelineEvent) (k i : Nat) (buf : List TimelineEvent),
    buf.length = C → k < rest.length → i + k < C →
    (Timeline.writeAux C tgt i buf rest).getD ((i + k + tgt) % C) d = rest.getD k d := by
  intro rest
  induction rest with
  | nil => intro k i buf _ hk; exact absurd hk (by simp)
  | cons e rest ih =>
    intro k i buf hbuf hk hik
    have hi : i < C := by omega
    unfold Timeline.writeAux
    rw [if_pos hi]
    cases k with
    | zero =>
      have harith : i + 0 = i := by omega
      rw [harith]
      rw [writeAux_getD_untouched C tgt d rest (i + 1) _ ((i + tgt) % C) (fun k hk hik1 => by
        intro heq
        have hlt1 : i + 1 + k < C := hik1
        have := mod_add_cancel_of_lt (t := tgt) hlt1 hi heq
        omega)]
      exact getD_set_self _ _ _ _ (by rw [hbuf]; exact Nat.mod_lt _ (by omega))
    | succ k =>
      have harith : i + (k + 1) + tgt = i + 1 + k + tgt := by omega
      rw [harith]
      have := ih k (i + 1) (buf.set ((i + tgt) % C) e)
        (by rw [List.length_set]; exact hbuf) (by simpa using hk) (by omega)
      rw [this]
      rfl

/-! ### Timeline.add branch equations -/

theorem add_full (C : Nat) (t : Timeline) (data : List TimelineEvent)
    (h : t.data.length = C) :
    Timeline.add C t data =
      some ⟨Timeline.writeAux C t.target_index 0 t.data data, t.target_index⟩ := by
  unfold Timeline.add
  rw [if_pos h]

theorem add_fits (C : Nat) (t : Timeline) (data : List TimelineEvent)
    (h1 : t.data.length ≠ C) (h2 : data.length + t.data.length ≤ C) :
    Timeline.add C t data = some ⟨t.data ++ data, t.target_index⟩ := by
  unfold Timeline.add
  rw [if_neg h1, if_pos h2]

theorem add_overflow (C : Nat) (t : Timeline) (data : List TimelineEvent)
    (h1 : t.data.length ≠ C) (h2 : ¬ (data.length + t.data.length ≤ C)) :
    Timeline.add C t data =
      (if data.length - (C - t.data.length) ≤ (t.data ++ data.take (C - t.data.length)).length then
        some ⟨data.drop (C - t.data.length) ++
          (t.data ++ data.take (C - t.data.length)).drop (data.length - (C - t.data.length)),
          data.length - (C - t.data.length)⟩
      else none) := by
  unfold Timeline.add
  rw [if_neg h1, if_neg h2]

theorem add_isSome_of_le (C : Nat) (t : Timeline) (evs : List TimelineEvent)
    (hwf : t.data.length ≤ C) (hle : evs.length ≤ 2 * C - t.data.length) :
    (Timeline.add C t evs).isSome = true := by
  by_cases h1 : t.data.length = C
  · rw [add_full C t evs h1]
    rfl
  · by_cases h2 : evs.length + t.data.length ≤ C
    · rw [add_fits C t evs h1 h2]
      rfl
    · rw [add_overflow C t evs h1 h2]
      have hext : (t.data ++ evs.take (C - t.data.length)).length = C := by
        simp only [List.length_append, List.length_take]
        omega
      rw [if_pos (by rw [hext]; omega)]
      rfl

theorem add_length_le (C : Nat) (t : Timeline) (evs : List TimelineEvent)
    (t' : Timeline) (hwf : t.data.length ≤ C) (h : Timeline.add C t evs = some t') :
    t'.data.length ≤ C := by
  by_cases h1 : t.data.length = C
  · rw [add_full C t evs h1] at h
    cases h
    rw [writeAux_length, h1]
  · by_cases h2 : evs.length + t.data.length ≤ C
    · rw [add_fits C t evs h1 h2] at h
      cases h
      simp only [List.length_append]
      omega
    · rw [add_overflow C t evs h1 h2] at h
      have hext : (t.data ++ evs.take (C - t.data.length)).length = C := by
        simp only [List.length_append, List.length_take]
        omega
      by_cases h3 : evs.length - (C - t.data.length) ≤ (t.data ++ evs.take (C - t.data.length)).length
      · rw [if_pos h3] at h
        cases h
        simp only [List.length_append, List.length_drop, hext]
        omega
      · rw [if_neg h3] at h
        cases h

theorem addAll_cons (C : Nat) (t : Timeline) (evs : List TimelineEvent)
    (rest : List (List TimelineEvent)) :
    Timeline.addAll C t (evs :: rest) =
      match Timeline.add C t evs with
      | none => none
      | some t1 => Timeline.addAll C t1 rest := rfl

theorem addAll_of_fits (C : Nat) : ∀ (lss : List (List TimelineEvent))
    (d : List TimelineEvent) (i : Nat), d.length + lss.flatten.length ≤ C →
    Timeline.addAll C ⟨d, i⟩ lss = some ⟨d ++ lss.flatten, i⟩ := by
  intro lss
  induction lss with
  | nil =>
    intro d i _
    simp [Timeline.addAll]
  | cons evs rest ih =>
    intro d i htot
    simp only [List.flatten_cons, List.length_append] at htot
    rw [addAll_cons]
    by_cases hC : d.length = C
    · have hevs : evs = [] := List.length_eq_zero.mp (by omega)
      subst hevs
      rw [add_full C ⟨d, i⟩ [] hC]
      dsimp only [Timeline.writeAux]
      rw [ih d i (by omega)]
      simp
    · rw [add_fits C ⟨d, i⟩ evs hC (by dsimp only; omega)]
      dsimp only
      rw [ih (d ++ evs) i (by simp only [List.length_append]; omega)]
      simp [List.append_assoc]

/-- C7: Timeline.add never lets the buffer length exceed the capacity C
over any sequence of calls, and adding exactly C events (across any
partition into calls) to an empty Timeline yields length C with the
events in insertion order and target_index still 0. -/
theorem timeline_capacity_invariant :
    (∀ (C : Nat) (t : Timeline) (evs : List TimelineEvent) (t' : Timeline),
      t.data.length ≤ C → Timeline.add C t evs = some t' → t'.data.length ≤ C) ∧
    (∀ (C : Nat) (lss : List (List TimelineEvent)), lss.flatten.length = C →
      Timeline.addAll C ⟨[], 0⟩ lss = some ⟨lss.flatten, 0⟩ ∧ lss.flatten.length = C) := by
  constructor
  · intro C t evs t' hwf h
    exact add_length_le C t evs t' hwf h
  · intro C lss hlen
    refine ⟨?_, hlen⟩
    have := addAll_of_fits C lss [] 0 (by simp [hlen])
    simpa using this

/-- Witness for C7 at capacity 2 with two single-event calls. -/
theorem timeline_capacity_invariant_witness :
    Timeline.add 2 ⟨[], 0⟩ [(1, TradeAction.Buy)] = some ⟨[(1, TradeAction.Buy)], 0⟩ ∧
    Timeline.addAll 2 ⟨[], 0⟩ [[(1, TradeAction.Buy)], [(2, TradeAction.Sell)]] =
      some ⟨[(1, TradeAction.Buy), (2, TradeAction.Sell)], 0⟩ ∧
    ([(1, TradeAction.Buy), (2, TradeAction.Sell)] : List TimelineEvent).length ≤ 2 := by
  refine ⟨by rfl, ?_, ?_⟩
  · have := (timeline_capacity_invariant.2 2
      [[(1, TradeAction.Buy)], [(2, TradeAction.Sell)]] (by rfl)).1
    simpa using this
  · exact timeline_capacity_invariant.1 2 ⟨[(1, TradeAction.Buy)], 0⟩
      [(2, TradeAction.Sell)] ⟨[(1, TradeAction.Buy), (2, TradeAction.Sell)], 0⟩
      (by decide) (by rfl)

/-- C10: Timeline.add never goes out of bounds when the incoming slice
has length at most C (and more generally at most 2C minus the current
length, the caller-side precondition the claim names), but it is not
total: an empty Timeline of capacity 1 given 3 incoming events makes the
partial-overflow branch index out of bounds. -/
theorem timeline_add_partiality :
    (∀ (C : Nat) (t : Timeline) (evs : List TimelineEvent),
      t.data.length ≤ C → evs.length ≤ C → (Timeline.add C t evs).isSome = true) ∧
    (∀ (C : Nat) (t : Timeline) (evs : List TimelineEvent),
      t.data.length ≤ C → evs.length ≤ 2 * C - t.data.length →
      (Timeline.add C t evs).isSome = true) ∧
    Timeline.add 1 ⟨[], 0⟩
      [(0, TradeAction.Buy), (0, TradeAction.Buy), (0, TradeAction.Buy)] = none := by
  refine ⟨?_, ?_, by rfl⟩
  · intro C t evs hwf hle
    exact add_isSome_of_le C t evs hwf (by omega)
  · intro C t evs hwf hle
    exact add_isSome_of_le C t evs hwf hle

/-- Witness for C10 at a concrete in-bounds input. -/
theorem timeline_add_partiality_witness :
    (Timeline.add 2 ⟨[(9, TradeAction.Sell)], 0⟩
      [(1, TradeAction.Buy), (2, TradeAction.Buy)]).isSome = true :=
  timeline_add_partiality.2.1 2 ⟨[(9, TradeAction.Sell)], 0⟩
    [(1, TradeAction.Buy), (2, TradeAction.Buy)] (by decide) (by decide)

/-- C5 counterexample: with a full buffer of capacity 2 and three
incoming events, the claimed branch-1 policy puts the event at relative
position 2 into slot (2 + 0) mod 2 = 0, but the code only writes the
first C = 2 incoming events, so slot 0 holds the event at position 0. -/
theorem timeline_add_full_branch_cex :
    Timeline.add 2 ⟨[(0, TradeAction.Buy), (0, TradeAction.Buy)], 0⟩
        [(1, TradeAction.Buy), (2, TradeAction.Buy), (3, TradeAction.Buy)] =
      some ⟨[(1, TradeAction.Buy), (2, TradeAction.Buy)], 0⟩ ∧
    (Timeline.add 2 ⟨[(0, TradeAction.Buy), (0, TradeAction.Buy)], 0⟩
        [(1, TradeAction.Buy), (2, TradeAction.Buy), (3, TradeAction.Buy)]).map
      (fun t1 => t1.data.getD ((2 + 0) % 2) defaultEvent) = some (1, TradeAction.Buy) ∧
    ((1, TradeAction.Buy) : TimelineEvent) ≠
      ([(1, TradeAction.Buy), (2, TradeAction.Buy), (3, TradeAction.Buy)].getD 2 defaultEvent) := by
  refine ⟨by rfl, by rfl, by decide⟩

/-- C5 amended: Timeline.add implements the three-branch policy with the
full-buffer branch restricted to the first min(incoming length, C)
events: (1) if the buffer holds C elements, the incoming event at
relative position i < min(incoming length, C) overwrites slot
(i + target_index) mod C, remaining slots are untouched and target_index
is not advanced; (2) if everything fits, events are appended in order
with target_index undisturbed; (3) otherwise the first C - length events
fill the buffer, the rest overwrite from index 0, and target_index is
one past that overwritten prefix; inserting six events into an empty
Timeline of capacity 4 gives the predicted buffer and target_index 2. -/
theorem timeline_add_three_branch_policy (C : Nat) (t : Timeline)
    (evs : List TimelineEvent) :
    (t.data.length = C →
      ∃ t', Timeline.add C t evs = some t' ∧
        t'.target_index = t.target_index ∧
        t'.data.length = C ∧
        (∀ i, i < evs.length → i < C →
          t'.data.getD ((i + t.target_index) % C) defaultEvent = evs.getD i defaultEvent) ∧
        (∀ j, (∀ i, i < evs.length → i < C → (i + t.target_index) % C ≠ j) →
          t'.data.getD j defaultEvent = t.data.getD j defaultEvent)) ∧
    (t.data.length ≠ C → evs.length + t.data.length ≤ C →
      Timeline.add C t evs = some ⟨t.data ++ evs, t.target_index⟩) ∧
    (t.data.length < C → C < evs.length + t.data.length →
      evs.length ≤ 2 * C - t.data.length →
      Timeline.add C t evs =
        some ⟨evs.drop (C - t.data.length) ++
          (t.data ++ evs.take (C - t.data.length)).drop (evs.length - (C - t.data.length)),
          evs.length - (C - t.data.length)⟩) ∧
    (Timeline.add 4 ⟨[], 0⟩
        [(1, TradeAction.Buy), (2, TradeAction.Buy), (3, TradeAction.Buy),
         (4, TradeAction.Buy), (5, TradeAction.Buy), (6, TradeAction.Buy)] =
      some ⟨[(5, TradeAction.Buy), (6, TradeAction.Buy), (3, TradeAction.Buy),
        (4, TradeAction.Buy)], 2⟩) := by
  refine ⟨?_, ?_, ?_, by rfl⟩
  · intro h1
    rw [add_full C t evs h1]
    refine ⟨_, rfl, rfl, ?_, ?_, ?_⟩
    · rw [writeAux_length, h1]
    · intro i hi hiC
      have := writeAux_getD_hit C t.target_index defaultEvent evs i 0 t.data h1 hi
        (by omega)
      simpa using this
    · intro j hj
      exact writeAux_getD_untouched C t.target_index defaultEvent evs 0 t.data j
        (fun k hk hkC => by
          have := hj k hk (by omega)
          simpa using this)
  · intro h1 h2
    exact add_fits C t evs h1 h2
  · intro h1 h2 h3
    rw [add_overflow C t evs (by omega) (by omega)]
    have hext : (t.data ++ evs.take (C - t.data.length)).length = C := by
      simp only [List.length_append, List.length_take]
      omega
    rw [if_pos (by rw [hext]; omega)]

/-- Witness for C5 amended: branch 3 at capacity 2 on a concrete input. -/
theorem timeline_add_three_branch_policy_witness :
    Timeline.add 2 ⟨[(9, TradeAction.Sell)], 0⟩
        [(1, TradeAction.Buy), (2, TradeAction.Buy), (3, TradeAction.Buy)] =
      some ⟨[(2, TradeAction.Buy), (3, TradeAction.Buy)], 2⟩ := by
  have := (timeline_add_three_branch_policy 2 ⟨[(9, TradeAction.Sell)], 0⟩
    [(1, TradeAction.Buy), (2, TradeAction.Buy), (3, TradeAction.Buy)]).2.2.1
    (by decide) (by decide) (by decide)
  exact this.trans (by rfl)

/-- C6: recency_bias degrades to get_rng when bias_size is at least the
length (in particular NoData on an empty timeline), and otherwise
resolves a uniform draw from [0, bias_size) through the documented
wraparound arithmetic. -/
theorem recency_bias_spec (t : Timeline) (bias_size draw : Nat) :
    (t.data.length ≤ bias_size →
      t.recency_bias bias_size draw = t.get_rng draw) ∧
    (bias_size < t.data.length → draw < bias_size →
      ((bias_size ≤ t.target_index →
        t.recency_bias bias_size draw =
          .ok (t.data.getD (draw + (t.target_index - bias_size)) defaultEvent)) ∧
       (t.target_index < bias_size → draw < t.target_index →
        t.recency_bias bias_size draw = .ok (t.data.getD draw defaultEvent)) ∧
       (t.target_index < bias_size → t.target_index ≤ draw →
        t.recency_bias bias_size draw =
          .ok (t.data.getD (t.data.length - (draw - t.target_index) - 1) defaultEvent)))) := by
  constructor
  · intro hge
    unfold Timeline.recency_bias
    rw [if_pos hge]
  · intro hlt hdraw
    refine ⟨?_, ?_, ?_⟩
    · intro hble
      unfold Timeline.recency_bias
      rw [if_neg (by omega)]
      by_cases hb : bias_size < t.target_index
      · rw [if_pos hb]
      · rw [if_neg hb]
        have heq : bias_size = t.target_index := by omega
        rw [if_pos (by omega)]
        have harith : draw + (t.target_index - bias_size) = draw := by omega
        rw [harith]
    · intro hb hd
      unfold Timeline.recency_bias
      rw [if_neg (by omega), if_neg (by omega), if_pos hd]
    · intro hb hd
      unfold Timeline.recency_bias
      rw [if_neg (by omega), if_neg (by omega), if_neg (by omega)]

/-- Witness for C6: both the degeneration case and the biased window
case at concrete inputs. -/
theorem recency_bias_spec_witness :
    Timeline.recency_bias ⟨[(1, TradeAction.Buy), (2, TradeAction.Sell)], 0⟩ 5 1 =
      Timeline.get_rng ⟨[(1, TradeAction.Buy), (2, TradeAction.Sell)], 0⟩ 1 ∧
    Timeline.recency_bias
      ⟨[(1, TradeAction.Buy), (2, TradeAction.Sell), (3, TradeAction.Buy),
        (4, TradeAction.Sell)], 3⟩ 2 1 = .ok (3, TradeAction.Buy) := by
  constructor
  · exact (recency_bias_spec ⟨[(1, TradeAction.Buy), (2, TradeAction.Sell)], 0⟩ 5 1).1
      (by decide)
  · have := ((recency_bias_spec
      ⟨[(1, TradeAction.Buy), (2, TradeAction.Sell), (3, TradeAction.Buy),
        (4, TradeAction.Sell)], 3⟩ 2 1).2 (by decide) (by decide)).1 (by decide)
    exact this.trans (by rfl)

/-! ### Agents, balances, retry pool, market interface -/

/-- Modelled from the spec: struct Trade of trade_house, whose file is
not under the verified sources; agents.rs only reads its
number_of_shares field and main.rs builds it via Trade::new(quantity). -/
structure Trade where
  number_of_shares : Nat
deriving DecidableEq, Repr

/-- Modelled from the spec: struct StockOption of trade_house (option
offers); agents.rs only reads data.number_of_shares from it. -/
structure StockOption where
  number_of_shares : Nat
deriving DecidableEq, Repr

/-- Modelled from the spec: the offer record stored by the matching
mechanism (trade_house is not under the verified sources); agents.rs
reads the fields offerer_id, strike_price, lifetime and data of an
expired offer. -/
structure Offer (α : Type) where
  offerer_id : Nat
  strike_price : ℚ
  lifetime : Nat
  data : α
deriving DecidableEq, Repr

/-- Modelled from the spec: FailedOffer pairs an offer with its trade
side; agents.rs accesses it as offer.0 and offer.1. -/
structure FailedOffer (α : Type) where
  offer : Offer α
  action : TradeAction
deriving DecidableEq, Repr

/-- Modelled from the spec: Balances stores one cash scalar per agent,
densely indexed by agent id; an out-of-range agent id is an error, not a
default (the struct lives in the crate root, outside the verified
sources; agents.rs calls get and add on it, both fallible). -/
structure Balances where
  vals : List ℚ
deriving DecidableEq, Repr

/-- Balances::get - the balance of an agent, AgentNotFound when out of
range. -/
def Balances.get (b : Balances) (agent_id : Nat) : Except SimulationError ℚ :=
  match b.vals.get? agent_id with
  | some v => .ok v
  | none => .error (.AgentNotFound agent_id)

/-- Balances::add - adds a signed amount to the balance of an agent,
AgentNotFound when out of range. -/
def Balances.add (b : Balances) (agent_id : Nat) (amount : ℚ) :
    Except SimulationError Balances :=
  match b.vals.get? agent_id with
  | some v => .ok ⟨b.vals.set agent_id (v + amount)⟩
  | none => .error (.AgentNotFound agent_id)

/-- struct TodoTransactions of transaction.rs: a queued trade intent. -/
structure TodoTransactions where
  agent_id : Nat
  company_id : Nat
  strike_price : ℚ
  action : TradeAction
  trade : Trade
deriving DecidableEq, Repr

/-- struct Agents of agents.rs: the engine state. The preferences table
is carried for structural fidelity; no verified claim touches it. -/
structure Agents where
  num_of_agents : Nat
  holdings : Holdings
  balances : Balances
  preferences : List Timeline
  try_offers : List (Nat × ℚ)
deriving DecidableEq, Repr

/-- Agents::can_buy - whether the balance covers price times quantity. -/
def Agents.can_buy (a : Agents) (agent_id : Nat) (price : ℚ) (quantity : Nat) :
    Except SimulationError Bool :=
  match a.balances.get agent_id with
  | .error e => .error e
  | .ok b => .ok (decide (b ≥ price * (quantity : ℚ)))

/-- Agents::can_sell - whether the holdings at a combined key cover the
quantity. -/
def Agents.can_sell (a : Agents) (id : Nat) (quantity : Nat) : Bool :=
  decide (a.holdings.get_u128 id ≥ quantity)

/-- Agents::add_failed_offer - records a retry-pool entry keyed by
(agent, company) with signed price plus a quarter of the failed price. -/
def Agents.add_failed_offer (a : Agents) (company_id agent_id : Nat)
    (failed_price : ℚ) (offer_type : TradeAction) : Agents :=
  let price : ℚ :=
    match offer_type with
    | TradeAction.Buy => failed_price
    | TradeAction.Sell => -failed_price
  { a with try_offers :=
      insertKV a.try_offers (combine agent_id company_id) (price + failed_price * (1 / 4)) }

/-- One expired trade offer of Agents::alert_agents: refund, then record
the retry entry. The sell branch pushes the shares to the agent id read
from the lifetime field of the offer, exactly as the source does. -/
def Agents.alertStepTrade (a : Agents) (company_id : Nat) (offer : FailedOffer Trade) :
    Except SimulationError Agents :=
  if offer.action = TradeAction.Sell then
    .ok (({ a with holdings :=
        a.holdings.push offer.offer.lifetime company_id offer.offer.data.number_of_shares
      }).add_failed_offer company_id offer.offer.offerer_id offer.offer.strike_price
        offer.action)
  else
    match a.balances.add offer.offer.offerer_id
        (offer.offer.strike_price * (offer.offer.data.number_of_shares : ℚ)) with
    | .error e => .error e
    | .ok b =>
      .ok (({ a with balances := b }).add_failed_offer company_id offer.offer.offerer_id
        offer.offer.strike_price offer.action)

/-- One expired option offer of Agents::alert_agents, structurally
identical to the trade-offer group. -/
def Agents.alertStepOption (a : Agents) (company_id : Nat) (offer : FailedOffer StockOption) :
    Except SimulationError Agents :=
  if offer.action = TradeAction.Sell then
    .ok (({ a with holdings :=
        a.holdings.push offer.offer.lifetime company_id offer.offer.data.number_of_shares
      }).add_failed_offer company_id offer.offer.offerer_id offer.offer.strike_price
        offer.action)
  else
    match a.balances.add offer.offer.offerer_id
        (offer.offer.strike_price * (offer.offer.data.number_of_shares : ℚ)) with
    | .error e => .error e
    | .ok b =>
      .ok (({ a with balances := b }).add_failed_offer company_id offer.offer.offerer_id
        offer.offer.strike_price offer.action)

/-- Agents::alert_agents - processes the expired trade offers grouped by
company, then the expired option offers; the HashMap groups are modelled
as association lists. -/
def Agents.alert_agents (a : Agents)
    (expired_trades : List (Nat × List (FailedOffer Trade)))
    (expired_options : List (Nat × List (FailedOffer StockOption))) :
    Except SimulationError Agents := do
  let a1 ← expired_trades.foldlM
    (fun acc g => g.2.foldlM (fun acc2 off => Agents.alertStepTrade acc2 g.1 off) acc) a
  expired_options.foldlM
    (fun acc g => g.2.foldlM (fun acc2 off => Agents.alertStepOption acc2 g.1 off) acc) a1

/-- The loop body of Agents::try_failed_offers over the retry-pool
entries, each paired with the uniform draw in [0, 10) consumed by
gen_ratio(6, 10); gen_ratio returns true (skip) for the 6 draws below 6. -/
def Agents.tryLoop (a : Agents) (attempting_trade : Trade) :
    List ((Nat × ℚ) × Nat) → List TodoTransactions →
    Except SimulationError (List TodoTransactions)
  | [], transactions => .ok transactions
  | ((id, new_price), u) :: rest, transactions =>
    if u < 6 then Agents.tryLoop a attempting_trade rest transactions
    else
      let ap : TradeAction × ℚ :=
        if new_price > 0 then (TradeAction.Buy, new_price)
        else (TradeAction.Sell, -new_price)
      match (match ap.1 with
        | TradeAction.Buy => a.can_buy (get_first id) ap.2 attempting_trade.number_of_shares
        | TradeAction.Sell => .ok (a.can_sell id attempting_trade.number_of_shares)) with
      | .error e => .error e
      | .ok can_transact =>
        if can_transact then
          Agents.tryLoop a attempting_trade rest (transactions ++
            [⟨get_first id, get_second id, ap.2, ap.1, attempting_trade⟩])
        else Agents.tryLoop a attempting_trade rest transactions

/-- Agents::try_failed_offers - takes the agents state immutably; the
returned pair carries the enqueued intents and the untouched retry pool
(the source takes self by shared reference, so the pool cannot change). -/
def Agents.try_failed_offers (a : Agents) (draws : List Nat)
    (transactions : List TodoTransactions) (attempting_trade : Trade) :
    Except SimulationError (List TodoTransactions × List (Nat × ℚ)) :=
  if a.try_offers.isEmpty then .ok (transactions, a.try_offers)
  else
    match Agents.tryLoop a attempting_trade (a.try_offers.zip draws) transactions with
    | .error e => .error e
    | .ok txns => .ok (txns, a.try_offers)

/-- An order submitted to the matching mechanism: the arguments of
market.trade in agents.rs. -/
structure MarketCall where
  agent_id : Nat
  company_id : Nat
  strike_price : ℚ
  acceptable_strike_price_deviation : ℚ
  trade : Trade
  action : TradeAction
deriving DecidableEq, Repr

/-- enum ActionState of the market module (variants as matched in
Agents::handle_action_state). -/
inductive ActionState where
  | AddedToOffers
  | InstantlyResolved (transaction : Transaction)
  | PartiallyResolved (transaction : Transaction)
deriving DecidableEq, Repr

/-- The reply of market.trade: Result of an ActionState or a set of
candidate offer indices. -/
inductive MarketReply where
  | resolved (state : ActionState)
  | offers (offer_idxs : List Nat)
deriving DecidableEq, Repr

/-- Modelled from the spec: the external matching mechanism (market.rs
is not under the verified sources). The market state records every
submitted order and every reported transaction; the reply to a call is
given by an oracle parameter threaded through Agents.trade. -/
structure Market where
  calls : List MarketCall
  transactions : List (Nat × ℚ)
deriving DecidableEq, Repr

/-- Modelled from the spec: market.trade receives the order; receiving
is recorded by appending the call. -/
def Market.record (m : Market) (call : MarketCall) : Market :=
  { m with calls := m.calls ++ [call] }

/-- Modelled from the spec: market.add_transaction logs a settled price
for a company. -/
def Market.add_transaction (m : Market) (company_id : Nat) (price : ℚ) : Market :=
  { m with transactions := m.transactions ++ [(company_id, price)] }

/-- Agents::exchange_currency_from_transaction - pops the shares from
the position of the first agent field (buyer_id) and credits the cash to
the second agent field (seller_id). State already mutated is kept when a
later step fails, as with Rust mutable references. -/
def Agents.exchange_currency_from_transaction (a : Agents) (transaction : Transaction) :
    Agents × Except SimulationError Unit :=
  match a.holdings.pop_from_txn transaction.buyer_id transaction with
  | .error e => (a, .error e)
  | .ok h =>
    let a1 : Agents := { a with holdings := h }
    match a1.balances.add transaction.seller_id
        (transaction.strike_price * (transaction.number_of_shares : ℚ)) with
    | .error e => (a1, .error e)
    | .ok b => ({ a1 with balances := b }, .ok ())

/-- Agents::handle_action_state - settles a resolved transaction, logs
its price, does nothing for a queued order. -/
def Agents.handle_action_state (a : Agents) (action_state : ActionState) (m : Market)
    (company_id : Nat) : Agents × Market × Except SimulationError Unit :=
  match action_state with
  | .AddedToOffers => (a, m, .ok ())
  | .InstantlyResolved transaction =>
    let m1 := m.add_transaction company_id transaction.strike_price
    let p := a.exchange_currency_from_transaction transaction
    (p.1, m1, p.2)
  | .PartiallyResolved transaction =>
    let m1 := m.add_transaction company_id transaction.strike_price
    let p := a.exchange_currency_from_transaction transaction
    (p.1, m1, p.2)

/-- The tail of Agents::trade after collateralization: dispatch on the
market reply; the offer-candidates branch only mutates the market
(handle_offer_idxs takes no Agents reference), modelled by an opaque
market update passed as the parameter hoi. -/
def Agents.trade_finish (hoi : Market → Market) (a : Agents) (m : Market)
    (company_id : Nat) (result : MarketReply) : Agents × Market × Except SimulationError Unit :=
  match result with
  | .resolved action_state => a.handle_action_state action_state m company_id
  | .offers _ => (a, hoi m, .ok ())

/-- Agents::trade - submits the order to the matching mechanism first
(market.trade is called before any collateral check, exactly as in the
source), then collateralizes: a sell pops the shares, a buy checks and
debits the balance; an error keeps all mutations made so far, so the
call log already holds the order. -/
def Agents.trade (resp : MarketCall → MarketReply) (hoi : Market → Market)
    (a : Agents) (m : Market) (company_id agent_id : Nat)
    (strike_price acceptable_strike_price_deviation : ℚ) (trade : Trade)
    (action : TradeAction) : Agents × Market × Except SimulationError Unit :=
  let call : MarketCall := ⟨agent_id, company_id, strike_price,
    acceptable_strike_price_deviation, trade, action⟩
  let m1 := m.record call
  let result := resp call
  if action = TradeAction.Sell then
    match a.holdings.pop agent_id company_id trade.number_of_shares with
    | .error e => (a, m1, .error e)
    | .ok h => Agents.trade_finish hoi { a with holdings := h } m1 company_id result
  else
    match a.balances.get agent_id with
    | .error e => (a, m1, .error e)
    | .ok balance =>
      if balance < strike_price * (trade.number_of_shares : ℚ) then
        (a, m1, .error .Unspendable)
      else
        match a.balances.add agent_id (-(strike_price * (trade.number_of_shares : ℚ))) with
        | .error e => (a, m1, .error e)
        | .ok b => Agents.trade_finish hoi { a with balances := b } m1 company_id result

/-! ### List.set lookup lemmas and Holdings.push observables -/

theorem get?_set_self_map {α : Type} : ∀ (l : List α) (i : Nat) (x : α),
    (l.set i x).get? i = (l.get? i).map (fun _ => x)
  | [], _, _ => rfl
  | _ :: _, 0, _ => rfl
  | _ :: l, i + 1, x => get?_set_self_map l i x

theorem get?_set_other {α : Type} : ∀ (l : List α) (i j : Nat) (x : α), i ≠ j →
    (l.set i x).get? j = l.get? j
  | [], _, _, _, _ => rfl
  | _ :: _, 0, 0, _, h => absurd rfl h
  | _ :: _, 0, _ + 1, _, _ => rfl
  | _ :: _, _ + 1, 0, _, _ => rfl
  | _ :: l, i + 1, j + 1, x, h => get?_set_other l i j x (fun he => h (by rw [he]))

theorem push_get_self (h : Holdings) (a c n : Nat) :
    (h.push a c n).get a c = h.get a c + n := by
  unfold Holdings.push Holdings.get
  cases hf : findVal h.entries (combine a c) with
  | none =>
    dsimp only
    rw [findVal_append_single_self _ _ _ hf]
    simp
  | some s =>
    dsimp only
    rw [findVal_setVal_self, hf]
    rfl

theorem push_findVal_ne (h : Holdings) (a c n : Nat) (k : Nat)
    (hk : k ≠ combine a c) :
    findVal (h.push a c n).entries k = findVal h.entries k := by
  unfold Holdings.push
  cases hf : findVal h.entries (combine a c) with
  | none =>
    dsimp only
    exact findVal_append_single_ne _ _ _ _ hk
  | some s =>
    dsimp only
    exact findVal_setVal_ne _ _ _ _ hk

/-! ### Settlement: C8 -/

theorem exchange_eq_of (a : Agents) (t : Transaction) (s : Nat) (v : ℚ)
    (hf : findVal a.holdings.entries (combine t.buyer_id t.company_id) = some s)
    (hs : ¬ s < t.number_of_shares)
    (hv : a.balances.vals.get? t.seller_id = some v) :
    a.exchange_currency_from_transaction t =
      ({ a with
          holdings := ⟨setVal a.holdings.entries (combine t.buyer_id t.company_id)
            (s - t.number_of_shares)⟩,
          balances := ⟨a.balances.vals.set t.seller_id
            (v + t.strike_price * (t.number_of_shares : ℚ))⟩ }, .ok ()) := by
  unfold Agents.exchange_currency_from_transaction Holdings.pop_from_txn Balances.add
  rw [hf]
  dsimp only
  rw [if_neg hs]
  dsimp only
  rw [hv]

/-- C8: for every Transaction settled successfully, settlement pops the
transacted number_of_shares from the holdings position keyed by the
first agent field (buyer_id), credits strike_price times
number_of_shares to the balance of the second agent field (seller_id),
and changes nothing else. -/
theorem exchange_currency_settlement (a : Agents) (t : Transaction) (a' : Agents)
    (h : a.exchange_currency_from_transaction t = (a', .ok ())) :
    (∃ s, findVal a.holdings.entries (combine t.buyer_id t.company_id) = some s ∧
      t.number_of_shares ≤ s ∧
      a'.holdings.get t.buyer_id t.company_id =
        a.holdings.get t.buyer_id t.company_id - t.number_of_shares ∧
      ∀ k, k ≠ combine t.buyer_id t.company_id →
        findVal a'.holdings.entries k = findVal a.holdings.entries k) ∧
    (∃ v, a.balances.vals.get? t.seller_id = some v ∧
      a'.balances.vals.get? t.seller_id =
        some (v + t.strike_price * (t.number_of_shares : ℚ)) ∧
      ∀ j, j ≠ t.seller_id → a'.balances.vals.get? j = a.balances.vals.get? j) ∧
    a'.num_of_agents = a.num_of_agents ∧
    a'.preferences = a.preferences ∧
    a'.try_offers = a.try_offers := by
  unfold Agents.exchange_currency_from_transaction at h
  cases hpop : a.holdings.pop_from_txn t.buyer_id t with
  | error e =>
    rw [hpop] at h
    dsimp only at h
    exact absurd h (by simp)
  | ok hold =>
    rw [hpop] at h
    dsimp only at h
    unfold Balances.add at h
    cases hv : a.balances.vals.get? t.seller_id with
    | none =>
      rw [hv] at h
      dsimp only at h
      exact absurd h (by simp)
    | some v =>
      rw [hv] at h
      dsimp only at h
      have ha' : a' = { a with
          holdings := hold,
          balances := ⟨a.balances.vals.set t.seller_id
            (v + t.strike_price * (t.number_of_shares : ℚ))⟩ } := by
        have := congrArg Prod.fst h
        dsimp at this
        exact this.symm
      subst ha'
      unfold Holdings.pop_from_txn at hpop
      cases hf : findVal a.holdings.entries (combine t.buyer_id t.company_id) with
      | none =>
        rw [hf] at hpop
        cases hpop
      | some s =>
        rw [hf] at hpop
        dsimp only at hpop
        by_cases hlt : s < t.number_of_shares
        · rw [if_pos hlt] at hpop
          cases hpop
        · rw [if_neg hlt] at hpop
          cases hpop
          refine ⟨⟨s, rfl, by omega, ?_, ?_⟩, ⟨v, rfl, ?_, ?_⟩, rfl, rfl, rfl⟩
          · unfold Holdings.get
            dsimp only
            rw [findVal_setVal_self, hf]
            rfl
          · intro k hk
            exact findVal_setVal_ne _ _ _ _ hk
          · dsimp only
            rw [get?_set_self_map, hv]
            rfl
          · intro j hj
            dsimp only
            exact get?_set_other _ _ _ _ (fun he => hj he.symm)

/-- Witness for C8 at a concrete transaction. -/
theorem exchange_currency_settlement_witness :
    Holdings.get ⟨setVal [(combine 0 5, 10)] (combine 0 5) (10 - 4)⟩ 0 5 =
      Holdings.get ⟨[(combine 0 5, 10)]⟩ 0 5 - 4 := by
  have h := exchange_currency_settlement
    ⟨2, ⟨[(combine 0 5, 10)]⟩, ⟨[100, 200]⟩, [], []⟩
    ⟨0, 1, 5, 4, 3⟩
    ⟨2, ⟨setVal [(combine 0 5, 10)] (combine 0 5) (10 - 4)⟩,
      ⟨List.set [100, 200] 1 (200 + 3 * ((4 : Nat) : ℚ))⟩, [], []⟩
    (exchange_eq_of
      ⟨2, ⟨[(combine 0 5, 10)]⟩, ⟨[100, 200]⟩, [], []⟩
      ⟨0, 1, 5, 4, 3⟩ 10 200 (by rfl) (by decide) (by rfl))
  obtain ⟨⟨s, hs1, hs2, hget, _⟩, _⟩ := h
  exact hget

/-! ### Retry pool: C4 -/

deriving instance DecidableEq for Except

theorem tryLoop_cons (a : Agents) (tr : Trade) (id : Nat) (p : ℚ) (u : Nat)
    (rest : List ((Nat × ℚ) × Nat)) (txns : List TodoTransactions) :
    Agents.tryLoop a tr (((id, p), u) :: rest) txns =
      if u < 6 then Agents.tryLoop a tr rest txns
      else
        let ap : TradeAction × ℚ :=
          if p > 0 then (TradeAction.Buy, p) else (TradeAction.Sell, -p)
        match (match ap.1 with
          | TradeAction.Buy => a.can_buy (get_first id) ap.2 tr.number_of_shares
          | TradeAction.Sell => .ok (a.can_sell id tr.number_of_shares)) with
        | .error e => .error e
        | .ok can_transact =>
          if can_transact then
            Agents.tryLoop a tr rest (txns ++
              [⟨get_first id, get_second id, ap.2, ap.1, tr⟩])
          else Agents.tryLoop a tr rest txns := rfl

/-- C4 counterexample: with one feasible retry entry, 6 of the 10
equiprobable gen_ratio draws skip it (and the remaining 4 enqueue it),
so the per-tick skip probability is 60 percent, not the claimed 40. -/
theorem try_failed_offers_skip_probability_cex :
    ¬ ((((Finset.range 10).filter (fun u =>
      Agents.try_failed_offers ⟨1, ⟨[(combine 0 1, 5)]⟩, ⟨[]⟩, [], [(combine 0 1, -3)]⟩
        [u] [] ⟨2⟩ =
      .ok ([], [(combine 0 1, -3)]))).card) = 4) := by
  decide

/-- C4 amended: try_failed_offers skips each retry-pool entry
independently with 60 percent probability per tick (gen_ratio(6,10) is
true, hence continue, for the 6 of 10 uniform draws below 6) and retains
it with 40 percent; for a retained entry it recovers the side and price
from the sign of the stored value (positive buys at that price, negative
sells at the negated price), checks feasibility with the quantity of the
passed current trade (balance for a buy, held shares for a sell),
enqueues a TradeIntent for the decoded agent and company exactly when
feasible, and never removes or modifies any retry-pool entry (the state
is taken by shared reference and returned untouched). -/
theorem try_failed_offers_spec :
    (∀ (a : Agents) (tr : Trade) (id : Nat) (p : ℚ) (u : Nat)
      (rest : List ((Nat × ℚ) × Nat)) (txns : List TodoTransactions),
      (u < 6 →
        Agents.tryLoop a tr (((id, p), u) :: rest) txns = Agents.tryLoop a tr rest txns) ∧
      (6 ≤ u → 0 < p → ∀ bal, a.balances.vals.get? (get_first id) = some bal →
        (p * (tr.number_of_shares : ℚ) ≤ bal →
          Agents.tryLoop a tr (((id, p), u) :: rest) txns =
            Agents.tryLoop a tr rest
              (txns ++ [⟨get_first id, get_second id, p, TradeAction.Buy, tr⟩])) ∧
        (bal < p * (tr.number_of_shares : ℚ) →
          Agents.tryLoop a tr (((id, p), u) :: rest) txns =
            Agents.tryLoop a tr rest txns)) ∧
      (6 ≤ u → ¬ 0 < p →
        (tr.number_of_shares ≤ a.holdings.get_u128 id →
          Agents.tryLoop a tr (((id, p), u) :: rest) txns =
            Agents.tryLoop a tr rest
              (txns ++ [⟨get_first id, get_second id, -p, TradeAction.Sell, tr⟩])) ∧
        (a.holdings.get_u128 id < tr.number_of_shares →
          Agents.tryLoop a tr (((id, p), u) :: rest) txns =
            Agents.tryLoop a tr rest txns))) ∧
    (∀ (a : Agents) (draws : List Nat) (txns : List TodoTransactions) (tr : Trade) r,
      a.try_failed_offers draws txns tr = .ok r → r.2 = a.try_offers) := by
  constructor
  · intro a tr id p u rest txns
    refine ⟨?_, ?_, ?_⟩
    · intro hu
      rw [tryLoop_cons, if_pos hu]
    · intro hu hp bal hget
      rw [tryLoop_cons, if_neg (by omega)]
      dsimp only
      rw [if_pos hp]
      dsimp only
      unfold Agents.can_buy Balances.get
      rw [hget]
      dsimp only
      constructor
      · intro hle
        rw [decide_eq_true hle]
        rw [if_pos rfl]
      · intro hlt
        rw [decide_eq_false (not_le.mpr hlt)]
        rw [if_neg (by simp)]
    · intro hu hp
      rw [tryLoop_cons, if_neg (by omega)]
      dsimp only
      rw [if_neg hp]
      dsimp only
      unfold Agents.can_sell
      constructor
      · intro hle
        rw [decide_eq_true hle]
        rw [if_pos rfl]
      · intro hlt
        rw [decide_eq_false (not_le.mpr hlt)]
        rw [if_neg (by simp)]
  · intro a draws txns tr r h
    unfold Agents.try_failed_offers at h
    by_cases he : a.try_offers.isEmpty
    · rw [if_pos he] at h
      cases h
      rfl
    · rw [if_neg he] at h
      cases hl : Agents.tryLoop a tr (a.try_offers.zip draws) txns with
      | error e =>
        rw [hl] at h
        cases h
      | ok txns2 =>
        rw [hl] at h
        cases h
        rfl

/-- Helper arithmetic fact for the C4 witness. -/
theorem five_mul_two_le_hundred : (5 : ℚ) * ((2 : Nat) : ℚ) ≤ 100 := by
  norm_num

/-- Witness for C4: a skipped draw, a retained feasible sell, and a
retained feasible buy at concrete inputs. -/
theorem try_failed_offers_spec_witness :
    (Agents.tryLoop ⟨1, ⟨[(combine 0 1, 5)]⟩, ⟨[100]⟩, [], []⟩ ⟨2⟩
        [((combine 0 1, -3), 3)] [] =
      Agents.tryLoop ⟨1, ⟨[(combine 0 1, 5)]⟩, ⟨[100]⟩, [], []⟩ ⟨2⟩ [] []) ∧
    (Agents.tryLoop ⟨1, ⟨[(combine 0 1, 5)]⟩, ⟨[100]⟩, [], []⟩ ⟨2⟩
        [((combine 0 1, -3), 7)] [] =
      Agents.tryLoop ⟨1, ⟨[(combine 0 1, 5)]⟩, ⟨[100]⟩, [], []⟩ ⟨2⟩ []
        ([] ++ [⟨get_first (combine 0 1), get_second (combine 0 1), -(-3),
          TradeAction.Sell, ⟨2⟩⟩])) ∧
    (Agents.tryLoop ⟨1, ⟨[(combine 0 1, 5)]⟩, ⟨[100]⟩, [], []⟩ ⟨2⟩
        [((combine 0 1, 5), 8)] [] =
      Agents.tryLoop ⟨1, ⟨[(combine 0 1, 5)]⟩, ⟨[100]⟩, [], []⟩ ⟨2⟩ []
        ([] ++ [⟨get_first (combine 0 1), get_second (combine 0 1), 5,
          TradeAction.Buy, ⟨2⟩⟩])) := by
  refine ⟨?_, ?_, ?_⟩
  · exact (try_failed_offers_spec.1 _ _ _ _ _ _ _).1 (by decide)
  · exact ((try_failed_offers_spec.1 _ _ _ _ _ _ _).2.2 (by decide) (by decide)).1 (by decide)
  · exact ((try_failed_offers_spec.1 _ _ _ _ _ _ _).2.1 (by decide) (by decide) 100
      (by rfl)).1 five_mul_two_le_hundred

/-! ### Trade collateralization: C2 -/

/-- C2 counterexample: an agent with balance 50 buying 20 shares at
strike 10 gets Unspendable with balances and holdings untouched, but the
market has already received the order (its call log grew), so the claim
that trade pre-collateralizes before the order reaches the matching
mechanism, leaving all state unmutated on failure, is false. -/
theorem trade_order_before_collateral_cex :
    (Agents.trade (fun _ => MarketReply.resolved ActionState.AddedToOffers) (fun m => m)
      ⟨1, ⟨[]⟩, ⟨[50]⟩, [], []⟩ ⟨[], []⟩ 0 0 10 5 ⟨20⟩ TradeAction.Buy =
      (⟨1, ⟨[]⟩, ⟨[50]⟩, [], []⟩,
        ⟨[⟨0, 0, 10, 5, ⟨20⟩, TradeAction.Buy⟩], []⟩,
        .error .Unspendable)) ∧
    (⟨[⟨0, 0, 10, 5, ⟨20⟩, TradeAction.Buy⟩], []⟩ : Market) ≠ (⟨[], []⟩ : Market) := by
  constructor
  · unfold Agents.trade
    rw [if_neg (by decide)]
    dsimp only
    rw [show Balances.get ⟨[50]⟩ 0 = .ok 50 from rfl]
    dsimp only
    rw [if_pos (show (50 : ℚ) < 10 * ((Trade.mk 20).number_of_shares : ℚ) from by norm_num)]
    rfl
  · decide

/-- C2 amended: trade submits the order to the external matching
mechanism first (the call is recorded before any collateral check), then
collateralizes: a sell pops the share quantity, failing with Unspendable
(the pop error) and leaving balances and holdings unmutated when the
position is absent or insufficient; a buy verifies balance at least
strike_price times number_of_shares and debits it, failing with
Unspendable and leaving balances and holdings unmutated when the
balance is insufficient; in every failing case the order has already
reached the matching mechanism. -/
theorem trade_collateral_spec (resp : MarketCall → MarketReply) (hoi : Market → Market)
    (a : Agents) (m : Market) (company_id agent_id : Nat)
    (sp dev : ℚ) (tr : Trade) :
    (∀ e, a.holdings.pop agent_id company_id tr.number_of_shares = .error e →
      Agents.trade resp hoi a m company_id agent_id sp dev tr TradeAction.Sell =
        (a, m.record ⟨agent_id, company_id, sp, dev, tr, TradeAction.Sell⟩, .error e)) ∧
    (∀ h1, a.holdings.pop agent_id company_id tr.number_of_shares = .ok h1 →
      Agents.trade resp hoi a m company_id agent_id sp dev tr TradeAction.Sell =
        Agents.trade_finish hoi { a with holdings := h1 }
          (m.record ⟨agent_id, company_id, sp, dev, tr, TradeAction.Sell⟩) company_id
          (resp ⟨agent_id, company_id, sp, dev, tr, TradeAction.Sell⟩)) ∧
    (∀ bal, a.balances.vals.get? agent_id = some bal →
      bal < sp * (tr.number_of_shares : ℚ) →
      Agents.trade resp hoi a m company_id agent_id sp dev tr TradeAction.Buy =
        (a, m.record ⟨agent_id, company_id, sp, dev, tr, TradeAction.Buy⟩,
          .error .Unspendable)) ∧
    (∀ bal, a.balances.vals.get? agent_id = some bal →
      ¬ (bal < sp * (tr.number_of_shares : ℚ)) →
      Agents.trade resp hoi a m company_id agent_id sp dev tr TradeAction.Buy =
        Agents.trade_finish hoi
          { a with balances := ⟨a.balances.vals.set agent_id
              (bal + -(sp * (tr.number_of_shares : ℚ)))⟩ }
          (m.record ⟨agent_id, company_id, sp, dev, tr, TradeAction.Buy⟩) company_id
          (resp ⟨agent_id, company_id, sp, dev, tr, TradeAction.Buy⟩)) := by
  refine ⟨?_, ?_, ?_, ?_⟩
  · intro e hpop
    unfold Agents.trade
    rw [if_pos rfl, hpop]
  · intro h1 hpop
    unfold Agents.trade
    rw [if_pos rfl, hpop]
  · intro bal hget hlt
    unfold Agents.trade
    rw [if_neg (by decide)]
    unfold Balances.get
    rw [hget]
    dsimp only
    rw [if_pos hlt]
  · intro bal hget hge
    unfold Agents.trade
    rw [if_neg (by decide)]
    unfold Balances.get
    rw [hget]
    dsimp only
    rw [if_neg hge]
    unfold Balances.add
    rw [hget]

/-- Helper arithmetic fact for the C2 witness. -/
theorem fifty_lt_cost : (50 : ℚ) < 10 * (((Trade.mk 20).number_of_shares : Nat) : ℚ) := by
  norm_num

/-- Witness for C2: the end-to-end example of the spec - balance 50,
buy 20 shares at strike 10, Unspendable, balance list unchanged, order
recorded. -/
theorem trade_collateral_spec_witness :
    Agents.trade (fun _ => MarketReply.resolved ActionState.AddedToOffers) (fun m => m)
      ⟨1, ⟨[]⟩, ⟨[50]⟩, [], []⟩ ⟨[], []⟩ 0 0 10 5 ⟨20⟩ TradeAction.Buy =
      (⟨1, ⟨[]⟩, ⟨[50]⟩, [], []⟩,
        Market.record ⟨[], []⟩ ⟨0, 0, 10, 5, ⟨20⟩, TradeAction.Buy⟩,
        .error .Unspendable) :=
  (trade_collateral_spec (fun _ => MarketReply.resolved ActionState.AddedToOffers)
    (fun m => m) ⟨1, ⟨[]⟩, ⟨[50]⟩, [], []⟩ ⟨[], []⟩ 0 0 10 5 ⟨20⟩).2.2.1
    50 (by rfl) fifty_lt_cost

/-! ### Expiry refunds and retry recording: C1 -/

/-- C1 counterexample: an expired sell offer (offerer 3, strike 8,
lifetime 7, 2 shares, company 1) processed by alert_agents refunds the
locked shares to agent 7 (the lifetime field), not to the owner 3, and
records the retry value -8 + 8/4 = -6 rather than the claimed
-(8 + 8/4) = -10. -/
theorem alert_agents_sell_refund_cex :
    (Agents.alert_agents ⟨0, ⟨[]⟩, ⟨[]⟩, [], []⟩
        [(1, [⟨⟨3, 8, 7, ⟨2⟩⟩, TradeAction.Sell⟩])] [] =
      .ok ⟨0, ⟨[(combine 7 1, 2)]⟩, ⟨[]⟩, [],
        [(combine 3 1, -(8 : ℚ) + 8 * (1 / 4))]⟩) ∧
    (Holdings.get ⟨[(combine 7 1, 2)]⟩ 3 1 = 0) ∧
    (Holdings.get ⟨[(combine 7 1, 2)]⟩ 7 1 = 2) ∧
    (findVal [(combine 3 1, -(8 : ℚ) + 8 * (1 / 4))] (combine 3 1) =
      some (-(8 : ℚ) + 8 * (1 / 4))) ∧
    (-(8 : ℚ) + 8 * (1 / 4) = -6) ∧
    ¬ (-(8 : ℚ) + 8 * (1 / 4) = -(8 + 8 * (1 / 4))) := by
  refine ⟨by rfl, by rfl, by rfl, by rfl, by norm_num, by norm_num⟩

/-- C1 amended: for every expired offer processed by alert_agents (from
either the expired-trades group or the expired-options group): if the
offer was a sell, the locked share quantity is pushed into the
HoldingsLedger position keyed by the agent id read from the lifetime
field of the offer (not the offerer) for that company, balances
untouched; if it was a buy, strike_price times number_of_shares is
credited back to the offerer; in both cases a retry-pool entry keyed by
(offerer, company) is recorded with value signed_price plus a quarter of
the strike price, that is 1.25 p for a buy and -0.75 p for a sell; no
other ledger, balance or pool entry changes. -/
theorem alert_agents_refund_spec :
    (∀ (a : Agents) (c : Nat) (off : FailedOffer Trade),
      (off.action = TradeAction.Sell → ∃ a',
        Agents.alertStepTrade a c off = .ok a' ∧
        a'.holdings.get off.offer.lifetime c =
          a.holdings.get off.offer.lifetime c + off.offer.data.number_of_shares ∧
        (∀ k, k ≠ combine off.offer.lifetime c →
          findVal a'.holdings.entries k = findVal a.holdings.entries k) ∧
        a'.balances = a.balances ∧
        findVal a'.try_offers (combine off.offer.offerer_id c) =
          some (-off.offer.strike_price + off.offer.strike_price * (1 / 4)) ∧
        (∀ k, k ≠ combine off.offer.offerer_id c →
          findVal a'.try_offers k = findVal a.try_offers k)) ∧
      (off.action = TradeAction.Buy → ∀ v,
        a.balances.vals.get? off.offer.offerer_id = some v → ∃ a',
        Agents.alertStepTrade a c off = .ok a' ∧
        a'.holdings = a.holdings ∧
        a'.balances.vals.get? off.offer.offerer_id =
          some (v + off.offer.strike_price * (off.offer.data.number_of_shares : ℚ)) ∧
        (∀ j, j ≠ off.offer.offerer_id →
          a'.balances.vals.get? j = a.balances.vals.get? j) ∧
        findVal a'.try_offers (combine off.offer.offerer_id c) =
          some (off.offer.strike_price + off.offer.strike_price * (1 / 4)) ∧
        (∀ k, k ≠ combine off.offer.offerer_id c →
          findVal a'.try_offers k = findVal a.try_offers k))) ∧
    (∀ (a : Agents) (c : Nat) (off : FailedOffer StockOption),
      (off.action = TradeAction.Sell → ∃ a',
        Agents.alertStepOption a c off = .ok a' ∧
        a'.holdings.get off.offer.lifetime c =
          a.holdings.get off.offer.lifetime c + off.offer.data.number_of_shares ∧
        (∀ k, k ≠ combine off.offer.lifetime c →
          findVal a'.holdings.entries k = findVal a.holdings.entries k) ∧
        a'.balances = a.balances ∧
        findVal a'.try_offers (combine off.offer.offerer_id c) =
          some (-off.offer.strike_price + off.offer.strike_price * (1 / 4)) ∧
        (∀ k, k ≠ combine off.offer.offerer_id c →
          findVal a'.try_offers k = findVal a.try_offers k)) ∧
      (off.action = TradeAction.Buy → ∀ v,
        a.balances.vals.get? off.offer.offerer_id = some v → ∃ a',
        Agents.alertStepOption a c off = .ok a' ∧
        a'.holdings = a.holdings ∧
        a'.balances.vals.get? off.offer.offerer_id =
          some (v + off.offer.strike_price * (off.offer.data.number_of_shares : ℚ)) ∧
        (∀ j, j ≠ off.offer.offerer_id →
          a'.balances.vals.get? j = a.balances.vals.get? j) ∧
        findVal a'.try_offers (combine off.offer.offerer_id c) =
          some (off.offer.strike_price + off.offer.strike_price * (1 / 4)) ∧
        (∀ k, k ≠ combine off.offer.offerer_id c →
          findVal a'.try_offers k = findVal a.try_offers k))) ∧
    (∀ (a : Agents) (c : Nat) (off : FailedOffer Trade),
      Agents.alert_agents a [(c, [off])] [] = Agents.alertStepTrade a c off) ∧
    (∀ (a : Agents) (c : Nat) (off : FailedOffer StockOption),
      Agents.alert_agents a [] [(c, [off])] = Agents.alertStepOption a c off) := by
  refine ⟨?_, ?_, ?_, ?_⟩
  · intro a c off
    constructor
    · intro hsell
      unfold Agents.alertStepTrade
      rw [if_pos hsell]
      refine ⟨_, rfl, ?_, ?_, rfl, ?_, ?_⟩
      · simp only [Agents.add_failed_offer]
        exact push_get_self _ _ _ _
      · intro k hk
        simp only [Agents.add_failed_offer]
        exact push_findVal_ne _ _ _ _ _ hk
      · simp only [Agents.add_failed_offer, hsell]
        exact findVal_insertKV_self _ _ _
      · intro k hk
        simp only [Agents.add_failed_offer]
        exact findVal_insertKV_ne _ _ _ _ hk
    · intro hbuy v hv
      unfold Agents.alertStepTrade
      rw [if_neg (by rw [hbuy]; intro hc; cases hc)]
      unfold Balances.add
      rw [hv]
      dsimp only
      refine ⟨_, rfl, rfl, ?_, ?_, ?_, ?_⟩
      · simp only [Agents.add_failed_offer]
        rw [get?_set_self_map, hv]
        rfl
      · intro j hj
        simp only [Agents.add_failed_offer]
        exact get?_set_other _ _ _ _ (fun he => hj he.symm)
      · simp only [Agents.add_failed_offer, hbuy]
        exact findVal_insertKV_self _ _ _
      · intro k hk
        simp only [Agents.add_failed_offer]
        exact findVal_insertKV_ne _ _ _ _ hk
  · intro a c off
    constructor
    · intro hsell
      unfold Agents.alertStepOption
      rw [if_pos hsell]
      refine ⟨_, rfl, ?_, ?_, rfl, ?_, ?_⟩
      · simp only [Agents.add_failed_offer]
        exact push_get_self _ _ _ _
      · intro k hk
        simp only [Agents.add_failed_offer]
        exact push_findVal_ne _ _ _ _ _ hk
      · simp only [Agents.add_failed_offer, hsell]
        exact findVal_insertKV_self _ _ _
      · intro k hk
        simp only [Agents.add_failed_offer]
        exact findVal_insertKV_ne _ _ _ _ hk
    · intro hbuy v hv
      unfold Agents.alertStepOption
      rw [if_neg (by rw [hbuy]; intro hc; cases hc)]
      unfold Balances.add
      rw [hv]
      dsimp only
      refine ⟨_, rfl, rfl, ?_, ?_, ?_, ?_⟩
      · simp only [Agents.add_failed_offer]
        rw [get?_set_self_map, hv]
        rfl
      · intro j hj
        simp only [Agents.add_failed_offer]
        exact get?_set_other _ _ _ _ (fun he => hj he.symm)
      · simp only [Agents.add_failed_offer, hbuy]
        exact findVal_insertKV_self _ _ _
      · intro k hk
        simp only [Agents.add_failed_offer]
        exact findVal_insertKV_ne _ _ _ _ hk
  · intro a c off
    cases hstep : Agents.alertStepTrade a c off with
    | error e =>
      simp [Agents.alert_agents, List.foldlM, hstep, Except.bind]
    | ok a1 =>
      simp [Agents.alert_agents, List.foldlM, hstep, Except.bind]
  · intro a c off
    cases hstep : Agents.alertStepOption a c off with
    | error e =>
      simp [Agents.alert_agents, List.foldlM, hstep, Except.bind]
    | ok a1 =>
      simp [Agents.alert_agents, List.foldlM, hstep, Except.bind]

/-- Witness for C1 at a concrete expired sell offer. -/
theorem alert_agents_refund_spec_witness :
    ∃ a', Agents.alertStepTrade ⟨0, ⟨[]⟩, ⟨[]⟩, [], []⟩ 1
        ⟨⟨3, 8, 7, ⟨2⟩⟩, TradeAction.Sell⟩ = .ok a' ∧
      a'.holdings.get 7 1 = Holdings.get ⟨[]⟩ 7 1 + 2 := by
  obtain ⟨a', hok, hget, _⟩ := (alert_agents_refund_spec.1 ⟨0, ⟨[]⟩, ⟨[]⟩, [], []⟩ 1
    ⟨⟨3, 8, 7, ⟨2⟩⟩, TradeAction.Sell⟩).1 (by rfl)
  exact ⟨a', hok, hget⟩
